import Mathlib

/-!
Verification of the retry driver in `src/src/lib.rs` (crate `short_future`).

The Rust source defines `ShortBoxFuture<'b, 'a, T>` (a boxed future bounded
by the shorter of two lifetimes) and, in its test module, the retry driver

  pub async fn with_retries<'a, F>(f: F) -> usize
  where F: for<'b> Fn(&'b str) -> ShortBoxFuture<'b, 'a, Result<(), ()>>
  {
      for i in 0..100 {
          let transaction = format!("{i} transaction");
          let result = f(&transaction).0.await;
          drop(transaction);
          match result {
              Ok(()) => return i,
              Err(()) => {}
          }
      }
      0
  }

together with the helper `str_eq` and tests that drive it.

Shallow embedding: lifetimes and the async machinery are erased; awaiting the
callback's future for the attempt resource `t` is modelled as applying a pure
function `f : String → Except Unit Unit` (`Except.ok ()` = `Ok(())`,
`Except.error ()` = `Err(())`).  The `for` loop is modelled by structural
recursion on the number of remaining iterations (fuel), which starts at the
hard-coded bound 100.  An instrumented variant records the observable events
of each attempt (resource creation, callback invocation, await, resource
release) and which exit path the loop took (early `return i` versus the final
fall-through `0`); a refinement lemma proves it agrees with the plain model.
-/

namespace ShortFuture

/-- DecidableEq for the modelled `Result<(), ()>`. -/
instance : DecidableEq (Except Unit Unit) := fun a b =>
  match a, b with
  | .ok (), .ok () => isTrue rfl
  | .error (), .error () => isTrue rfl
  | .ok (), .error () => isFalse (fun h => Except.noConfusion h)
  | .error (), .ok () => isFalse (fun h => Except.noConfusion h)

/-- The per-attempt resource label: `format!("{i} transaction")` from
`with_retries` (src/src/lib.rs line 26). -/
def transaction (i : Nat) : String := toString i ++ " transaction"

/-- The loop of `with_retries` (src/src/lib.rs lines 23-34), starting at
attempt index `i` with `fuel` iterations remaining: on `Ok(())` return `i`,
on `Err(())` continue; when the iterations are exhausted the function falls
through to `return 0` (line 35). -/
def retriesFrom (f : String → Except Unit Unit) : Nat → Nat → Nat
  | _, 0 => 0
  | i, fuel + 1 =>
    match f (transaction i) with
    | .ok () => i
    | .error () => retriesFrom f (i + 1) fuel

/-- `with_retries` (src/src/lib.rs lines 19-36): run the loop from attempt 0
with the hard-coded maximum of 100 iterations. -/
def with_retries (f : String → Except Unit Unit) : Nat :=
  retriesFrom f 0 100

/-- `str_eq` (src/src/lib.rs lines 38-44): `Ok(())` when the two strings are
equal, `Err(())` otherwise. -/
def str_eq (a b : String) : Except Unit Unit :=
  if a = b then .ok () else .error ()

/-- The callback of `test_retries_closure` / `test_retries_fn`
(src/src/lib.rs lines 50, 57): compare the borrowed session string against
the outer data `"11 transaction"` using `str_eq`. -/
def test_callback (session : String) : Except Unit Unit :=
  str_eq session "11 transaction"

/-- Observable events of one attempt of the driver, in source order:
resource creation (line 26), callback invocation and await of the returned
future with its result (line 27), resource release (line 29). -/
inductive Event where
  | create : String → Event
  | invoke : String → Event
  | wait : String → Except Unit Unit → Event
  | release : String → Event
deriving DecidableEq

/-- Which exit path the loop of `with_retries` took: the early `return i` on
`Ok(())` (line 31), or the fall-through `0` after all iterations failed
(line 35). -/
inductive RetryEnd where
  | success : Nat → RetryEnd
  | exhausted : RetryEnd
deriving DecidableEq

/-- Instrumented loop of `with_retries`: same control flow as `retriesFrom`,
additionally recording the event sequence of every attempt and which exit
path was taken. -/
def traceFrom (f : String → Except Unit Unit) : Nat → Nat → List Event × RetryEnd
  | _, 0 => ([], .exhausted)
  | i, fuel + 1 =>
    match f (transaction i) with
    | .ok () =>
      ([.create (transaction i), .invoke (transaction i),
        .wait (transaction i) (.ok ()), .release (transaction i)], .success i)
    | .error () =>
      (.create (transaction i) :: .invoke (transaction i) ::
        .wait (transaction i) (.error ()) :: .release (transaction i) ::
        (traceFrom f (i + 1) fuel).1,
       (traceFrom f (i + 1) fuel).2)

/-- The event sequence observed during `with_retries f`. -/
def retryTrace (f : String → Except Unit Unit) : List Event :=
  (traceFrom f 0 100).1

/-- The exit path taken by `with_retries f`. -/
def retryEnd (f : String → Except Unit Unit) : RetryEnd :=
  (traceFrom f 0 100).2

/-- Labels of the resources created during an event sequence, in order. -/
def createdLabels (evs : List Event) : List String :=
  evs.filterMap fun e => match e with | .create t => some t | _ => none

/-- Labels of the resources released during an event sequence, in order. -/
def releasedLabels (evs : List Event) : List String :=
  evs.filterMap fun e => match e with | .release t => some t | _ => none

/-- Labels the callback was invoked with during an event sequence, in order. -/
def invokedLabels (evs : List Event) : List String :=
  evs.filterMap fun e => match e with | .invoke t => some t | _ => none

/-- Number of attempts `with_retries f` executes (resource creations). -/
def numAttempts (f : String → Except Unit Unit) : Nat :=
  (createdLabels (retryTrace f)).length

/-- The four events of attempt `i`, in the order the source performs them. -/
def attemptBlock (f : String → Except Unit Unit) (i : Nat) : List Event :=
  [.create (transaction i), .invoke (transaction i),
   .wait (transaction i) (f (transaction i)), .release (transaction i)]

/-- The concatenated event blocks of attempts `i, i+1, ..., i+n-1`. -/
def blocksFrom (f : String → Except Unit Unit) (i : Nat) : Nat → List Event
  | 0 => []
  | n + 1 => attemptBlock f i ++ blocksFrom f (i + 1) n

/-- States of the retry state machine from the specification. -/
inductive DriverState where
  | attempting : Nat → DriverState
  | succeeded : DriverState
  | exhausted : DriverState
deriving DecidableEq

/-- The specification's transition function on driver states, for maximum
attempt count `max` and per-attempt outcomes `out`: from `Attempting i`,
success goes to `Succeeded`, failure goes to `Attempting (i+1)` when
`i+1 < max` and to `Exhausted` when not; `Succeeded` and `Exhausted` are
terminal. -/
def machineStep (max : Nat) (out : Nat → Except Unit Unit) :
    DriverState → DriverState
  | .attempting i =>
    match out i with
    | .ok () => .succeeded
    | .error () => if i + 1 < max then .attempting (i + 1) else .exhausted
  | .succeeded => .succeeded
  | .exhausted => .exhausted

/-- The sequence of control states the loop of `with_retries` passes through,
read off the same recursion as `retriesFrom`: entering an iteration with
index `i` is `Attempting i`, the early return is `Succeeded`, the
fall-through after the last failed iteration is `Exhausted`. -/
def statesFrom (f : String → Except Unit Unit) : Nat → Nat → List DriverState
  | _, 0 => [.exhausted]
  | i, fuel + 1 =>
    .attempting i ::
      (match f (transaction i) with
       | .ok () => [.succeeded]
       | .error () => statesFrom f (i + 1) fuel)

/-- The control states `with_retries f` passes through. -/
def driverStates (f : String → Except Unit Unit) : List DriverState :=
  statesFrom f 0 100

/-! Helper lemmas relating the plain model, the instrumented trace, and the
block decomposition of the trace. -/

/-- The plain loop result is determined by the exit path of the instrumented
loop: the early return yields its index, the fall-through yields 0. -/
theorem retriesFrom_eq_end (f : String → Except Unit Unit) :
    ∀ fuel i, retriesFrom f i fuel =
      (match (traceFrom f i fuel).2 with
       | .success k => k
       | .exhausted => 0) := by
  intro fuel
  induction fuel with
  | zero => intro i; rfl
  | succ m ih =>
    intro i
    cases h : f (transaction i) with
    | ok u => cases u; simp [retriesFrom, traceFrom, h]
    | error u => cases u; simp only [retriesFrom, traceFrom, h]; exact ih (i + 1)

/-- The instrumented trace is a concatenation of whole attempt blocks: at
least one when there is fuel, and at most `fuel` many. -/
theorem traceFrom_blocks (f : String → Except Unit Unit) :
    ∀ fuel i, ∃ n, n ≤ fuel ∧ (1 ≤ fuel → 1 ≤ n) ∧
      (traceFrom f i fuel).1 = blocksFrom f i n := by
  intro fuel
  induction fuel with
  | zero => intro i; exact ⟨0, le_rfl, by omega, rfl⟩
  | succ m ih =>
    intro i
    cases h : f (transaction i) with
    | ok u =>
      cases u
      refine ⟨1, by omega, fun _ => le_rfl, ?_⟩
      simp [traceFrom, blocksFrom, attemptBlock, h]
    | error u =>
      cases u
      obtain ⟨n, hn, _, htr⟩ := ih (i + 1)
      refine ⟨n + 1, by omega, by omega, ?_⟩
      simp [traceFrom, blocksFrom, attemptBlock, h, htr]

/-- Created labels of a block run: the labels of attempts `i, ..., i+n-1`. -/
theorem createdLabels_blocksFrom (f : String → Except Unit Unit) :
    ∀ n i, createdLabels (blocksFrom f i n)
      = (List.range n).map (fun j => transaction (i + j)) := by
  intro n
  induction n with
  | zero => intro i; rfl
  | succ m ih =>
    intro i
    have hstep : createdLabels (blocksFrom f i (m + 1))
        = transaction i :: createdLabels (blocksFrom f (i + 1) m) := by
      rw [blocksFrom]
      simp [createdLabels, attemptBlock, List.filterMap_append]
    rw [hstep, ih (i + 1), List.range_succ_eq_map]
    simp only [List.map_cons, List.map_map, Nat.add_zero]
    congr 1
    refine List.map_congr_left fun a _ => ?_
    simp only [Function.comp_apply]
    exact congrArg transaction (by omega)

/-- Released labels of a block run: the labels of attempts `i, ..., i+n-1`. -/
theorem releasedLabels_blocksFrom (f : String → Except Unit Unit) :
    ∀ n i, releasedLabels (blocksFrom f i n)
      = (List.range n).map (fun j => transaction (i + j)) := by
  intro n
  induction n with
  | zero => intro i; rfl
  | succ m ih =>
    intro i
    have hstep : releasedLabels (blocksFrom f i (m + 1))
        = transaction i :: releasedLabels (blocksFrom f (i + 1) m) := by
      rw [blocksFrom]
      simp [releasedLabels, attemptBlock, List.filterMap_append]
    rw [hstep, ih (i + 1), List.range_succ_eq_map]
    simp only [List.map_cons, List.map_map, Nat.add_zero]
    congr 1
    refine List.map_congr_left fun a _ => ?_
    simp only [Function.comp_apply]
    exact congrArg transaction (by omega)

/-- Invoked labels of a block run: the labels of attempts `i, ..., i+n-1`. -/
theorem invokedLabels_blocksFrom (f : String → Except Unit Unit) :
    ∀ n i, invokedLabels (blocksFrom f i n)
      = (List.range n).map (fun j => transaction (i + j)) := by
  intro n
  induction n with
  | zero => intro i; rfl
  | succ m ih =>
    intro i
    have hstep : invokedLabels (blocksFrom f i (m + 1))
        = transaction i :: invokedLabels (blocksFrom f (i + 1) m) := by
      rw [blocksFrom]
      simp [invokedLabels, attemptBlock, List.filterMap_append]
    rw [hstep, ih (i + 1), List.range_succ_eq_map]
    simp only [List.map_cons, List.map_map, Nat.add_zero]
    congr 1
    refine List.map_congr_left fun a _ => ?_
    simp only [Function.comp_apply]
    exact congrArg transaction (by omega)

/-- Positions inside a block run: the events of the `k`-th executed attempt
occupy positions `4*k .. 4*k+3`, and are the events of `attemptBlock` for
attempt index `i + k`. -/
theorem blocksFrom_getElem (f : String → Except Unit Unit) :
    ∀ k n i r, k < n → r < 4 →
      (blocksFrom f i n)[4 * k + r]? = (attemptBlock f (i + k))[r]? := by
  intro k
  induction k with
  | zero =>
    intro n i r hk hr
    obtain ⟨m, rfl⟩ : ∃ m, n = m + 1 := ⟨n - 1, by omega⟩
    rw [blocksFrom, List.getElem?_append, if_pos (by simp [attemptBlock]; omega)]
    simp
  | succ k ih =>
    intro n i r hk hr
    obtain ⟨m, rfl⟩ : ∃ m, n = m + 1 := ⟨n - 1, by omega⟩
    rw [blocksFrom, List.getElem?_append_right (by simp [attemptBlock]; omega)]
    have hlen : (attemptBlock f i).length = 4 := by simp [attemptBlock]
    rw [hlen, show 4 * (k + 1) + r - 4 = 4 * k + r from by omega,
      ih m (i + 1) r (by omega) hr, show i + (k + 1) = i + 1 + k from by omega]

/-- When the callback fails on attempts `i .. i+k-1` and succeeds on attempt
`i+k` (with enough fuel), the instrumented loop runs exactly the `k+1` blocks
of those attempts and exits successfully with index `i+k`. -/
theorem traceFrom_success (f : String → Except Unit Unit) :
    ∀ k fuel i, k < fuel →
      (∀ j, j < k → f (transaction (i + j)) = .error ()) →
      f (transaction (i + k)) = .ok () →
      traceFrom f i fuel = (blocksFrom f i (k + 1), .success (i + k)) := by
  intro k
  induction k with
  | zero =>
    intro fuel i hk hfail hok
    obtain ⟨m, rfl⟩ : ∃ m, fuel = m + 1 := ⟨fuel - 1, by omega⟩
    rw [Nat.add_zero] at hok
    simp [traceFrom, blocksFrom, attemptBlock, hok]
  | succ k ih =>
    intro fuel i hk hfail hok
    obtain ⟨m, rfl⟩ : ∃ m, fuel = m + 1 := ⟨fuel - 1, by omega⟩
    have h0 : f (transaction i) = .error () := by
      have h := hfail 0 (by omega)
      rwa [Nat.add_zero] at h
    have hrec := ih m (i + 1) (by omega)
      (fun j hj => by
        have h := hfail (j + 1) (by omega)
        rwa [show i + (j + 1) = i + 1 + j from by omega] at h)
      (by rwa [show i + 1 + k = i + (k + 1) from by omega])
    rw [show i + 1 + k = i + (k + 1) from by omega] at hrec
    simp [traceFrom, blocksFrom, attemptBlock, h0, hrec]

/-- When the callback fails on all `fuel` attempts starting at `i`, the
instrumented loop runs all `fuel` blocks and exits exhausted. -/
theorem traceFrom_exhausted (f : String → Except Unit Unit) :
    ∀ fuel i, (∀ j, j < fuel → f (transaction (i + j)) = .error ()) →
      traceFrom f i fuel = (blocksFrom f i fuel, .exhausted) := by
  intro fuel
  induction fuel with
  | zero => intro i _; rfl
  | succ m ih =>
    intro i hfail
    have h0 : f (transaction i) = .error () := by
      have h := hfail 0 (by omega)
      rwa [Nat.add_zero] at h
    have hrec := ih (i + 1) (fun j hj => by
      have h := hfail (j + 1) (by omega)
      rwa [show i + (j + 1) = i + 1 + j from by omega] at h)
    simp [traceFrom, blocksFrom, attemptBlock, h0, hrec]

/-- With at least one iteration of fuel, the loop result is below
`i + fuel`: an early return yields an index inside the iteration range and
the fall-through yields 0. -/
theorem retriesFrom_lt (f : String → Except Unit Unit) :
    ∀ fuel i, 1 ≤ fuel → retriesFrom f i fuel < i + fuel := by
  intro fuel
  induction fuel with
  | zero => intro i h; omega
  | succ m ih =>
    intro i _
    cases h : f (transaction i) with
    | ok u => cases u; simp only [retriesFrom, h]; omega
    | error u =>
      cases u
      simp only [retriesFrom, h]
      rcases Nat.eq_zero_or_pos m with hm | hm
      · subst hm; simp only [retriesFrom]; omega
      · have h2 := ih (i + 1) hm; omega

/-- Every state list produced by the loop is nonempty (it is a cons). -/
theorem statesFrom_cons (f : String → Except Unit Unit) :
    ∀ fuel i, ∃ s l, statesFrom f i fuel = s :: l := by
  intro fuel i
  cases fuel with
  | zero => exact ⟨_, _, rfl⟩
  | succ m => exact ⟨_, _, rfl⟩

/-- The control-state sequence of the loop follows the specification's
transition function, provided the loop is entered with `i + fuel = 100`
(as `with_retries` does with `i = 0`, `fuel = 100`). -/
theorem statesFrom_chain (f : String → Except Unit Unit) :
    ∀ fuel i, i + fuel = 100 →
      List.Chain' (fun s t => t = machineStep 100 (fun j => f (transaction j)) s)
        (statesFrom f i fuel) := by
  intro fuel
  induction fuel with
  | zero => intro i _; exact List.chain'_singleton _
  | succ m ih =>
    intro i hi
    cases h : f (transaction i) with
    | ok u =>
      cases u
      simp only [statesFrom, h]
      rw [List.chain'_cons]
      exact ⟨by simp [machineStep, h], List.chain'_singleton _⟩
    | error u =>
      cases u
      simp only [statesFrom, h]
      rw [List.chain'_cons']
      refine ⟨?_, ih (i + 1) (by omega)⟩
      intro b hb
      cases m with
      | zero =>
        simp only [statesFrom, List.head?_cons, Option.mem_def,
          Option.some.injEq] at hb
        subst hb
        simp only [machineStep, h]
        rw [if_neg (by omega)]
      | succ m' =>
        simp only [statesFrom, List.head?_cons, Option.mem_def,
          Option.some.injEq] at hb
        subst hb
        simp only [machineStep, h]
        rw [if_pos (by omega)]

/-- The exit path of the instrumented loop matches the final control state:
exhausted exit iff the state sequence ends in `Exhausted`, successful exit
iff it ends in `Succeeded`. -/
theorem statesFrom_getLast (f : String → Except Unit Unit) :
    ∀ fuel i,
      ((traceFrom f i fuel).2 = .exhausted ∧
        (statesFrom f i fuel).getLast? = some .exhausted) ∨
      (∃ k, (traceFrom f i fuel).2 = .success k ∧
        (statesFrom f i fuel).getLast? = some .succeeded) := by
  intro fuel
  induction fuel with
  | zero => intro i; exact Or.inl ⟨rfl, rfl⟩
  | succ m ih =>
    intro i
    cases h : f (transaction i) with
    | ok u =>
      cases u
      refine Or.inr ⟨i, by simp [traceFrom, h], ?_⟩
      simp only [statesFrom, h]
      rw [List.getLast?_cons_cons]
      rfl
    | error u =>
      cases u
      have hgl : (statesFrom f i (m + 1)).getLast?
          = (statesFrom f (i + 1) m).getLast? := by
        simp only [statesFrom, h]
        obtain ⟨s, l, hsl⟩ := statesFrom_cons f m (i + 1)
        rw [hsl, List.getLast?_cons_cons]
      rcases ih (i + 1) with ⟨h1, h2⟩ | ⟨k, h1, h2⟩
      · exact Or.inl ⟨by simp [traceFrom, h, h1], by rw [hgl]; exact h2⟩
      · exact Or.inr ⟨k, by simp [traceFrom, h, h1], by rw [hgl]; exact h2⟩

/-- Reindexing helper: attempt labels starting at 0 are just `transaction`. -/
theorem range_map_transaction (n : Nat) :
    (List.range n).map (fun j => transaction (0 + j)) = (List.range n).map transaction :=
  List.map_congr_left fun a _ => by rw [Nat.zero_add]

/-! Claim theorems. -/

/-- C2: for every success index `k < 100`, if the callback fails on attempts
`0..k-1` and succeeds on attempt `k`, then `with_retries` returns `k` via the
successful exit path, having created, released, and passed to the callback
exactly the `k+1` resources `"{i} transaction"` for `i = 0..k` — so the
callback is never invoked after the successful attempt. -/
theorem with_retries_success_at_k (f : String → Except Unit Unit) (k : Nat)
    (hk : k < 100)
    (hfail : ∀ i, i < k → f (transaction i) = .error ())
    (hok : f (transaction k) = .ok ()) :
    with_retries f = k ∧ retryEnd f = .success k ∧
    createdLabels (retryTrace f) = (List.range (k + 1)).map transaction ∧
    releasedLabels (retryTrace f) = (List.range (k + 1)).map transaction ∧
    invokedLabels (retryTrace f) = (List.range (k + 1)).map transaction := by
  have htr := traceFrom_success f k 100 0 hk
    (fun j hj => by rw [Nat.zero_add]; exact hfail j hj)
    (by rw [Nat.zero_add]; exact hok)
  rw [Nat.zero_add] at htr
  have h1 : retryTrace f = blocksFrom f 0 (k + 1) := by rw [retryTrace, htr]
  refine ⟨?_, by rw [retryEnd, htr], ?_, ?_, ?_⟩
  · rw [with_retries, retriesFrom_eq_end f 100 0, htr]
  · rw [h1, createdLabels_blocksFrom f (k + 1) 0, range_map_transaction]
  · rw [h1, releasedLabels_blocksFrom f (k + 1) 0, range_map_transaction]
  · rw [h1, invokedLabels_blocksFrom f (k + 1) 0, range_map_transaction]

/-- Witness for C2: the test scenario with outer data `"11 transaction"`
succeeds at attempt index 11 after 12 attempts. -/
theorem with_retries_success_at_k_witness :
    with_retries test_callback = 11 ∧ retryEnd test_callback = .success 11 ∧
    createdLabels (retryTrace test_callback) = (List.range 12).map transaction ∧
    releasedLabels (retryTrace test_callback) = (List.range 12).map transaction ∧
    invokedLabels (retryTrace test_callback) = (List.range 12).map transaction :=
  with_retries_success_at_k test_callback 11 (by decide) (by decide) (by decide)

/-- C3: if the callback fails on every one of the 100 attempts, the loop
exits through the exhaustion path after creating and releasing exactly the
100 resources `"{i} transaction"` for `i = 0..99` — never more — and the
returned usize is the fall-through value 0. -/
theorem with_retries_exhaustion_counts (f : String → Except Unit Unit)
    (hfail : ∀ i, i < 100 → f (transaction i) = .error ()) :
    retryEnd f = .exhausted ∧
    createdLabels (retryTrace f) = (List.range 100).map transaction ∧
    releasedLabels (retryTrace f) = (List.range 100).map transaction ∧
    numAttempts f = 100 ∧ with_retries f = 0 := by
  have htr := traceFrom_exhausted f 100 0
    (fun j hj => by rw [Nat.zero_add]; exact hfail j hj)
  have h1 : retryTrace f = blocksFrom f 0 100 := by rw [retryTrace, htr]
  refine ⟨by rw [retryEnd, htr], ?_, ?_, ?_, ?_⟩
  · rw [h1, createdLabels_blocksFrom f 100 0, range_map_transaction]
  · rw [h1, releasedLabels_blocksFrom f 100 0, range_map_transaction]
  · rw [numAttempts, h1, createdLabels_blocksFrom f 100 0]; simp
  · rw [with_retries, retriesFrom_eq_end f 100 0, htr]

/-- Witness for C3: the concrete scenario with outer data
`"999 transaction"`, which matches none of the 100 labels. -/
theorem with_retries_exhaustion_counts_witness :
    retryEnd (fun s => str_eq s "999 transaction") = .exhausted ∧
    createdLabels (retryTrace (fun s => str_eq s "999 transaction"))
      = (List.range 100).map transaction ∧
    releasedLabels (retryTrace (fun s => str_eq s "999 transaction"))
      = (List.range 100).map transaction ∧
    numAttempts (fun s => str_eq s "999 transaction") = 100 ∧
    with_retries (fun s => str_eq s "999 transaction") = 0 :=
  with_retries_exhaustion_counts _ (by decide)

/-- C4: in the concrete scenario of `test_retries_closure` (outer data
`"11 transaction"`, operation `str_eq` against the per-attempt label),
`with_retries` returns success with index 11 after creating and releasing
exactly the resources 0 through 11 (12 in total), none reused. -/
theorem test_retries_scenario :
    with_retries test_callback = 11 ∧
    retryEnd test_callback = .success 11 ∧
    createdLabels (retryTrace test_callback) = (List.range 12).map transaction ∧
    releasedLabels (retryTrace test_callback) = (List.range 12).map transaction ∧
    (createdLabels (retryTrace test_callback)).length = 12 ∧
    ((List.range 12).map transaction).Nodup := by
  decide

/-- C5: the driver's execution follows the specification's state machine:
it starts in `Attempting 0`, every consecutive pair of control states is
related by the transition function (success goes to `Succeeded`, failure to
`Attempting (i+1)` when `i+1 < 100` and to `Exhausted` when `i+1 = 100`),
the run ends in `Succeeded` exactly when the loop exits successfully and in
`Exhausted` exactly when it exhausts, and both final states are fixed points
of the transition function. -/
theorem with_retries_state_machine (f : String → Except Unit Unit) :
    (driverStates f).head? = some (.attempting 0) ∧
    List.Chain' (fun s t => t = machineStep 100 (fun i => f (transaction i)) s)
      (driverStates f) ∧
    ((retryEnd f = .exhausted ∧ (driverStates f).getLast? = some .exhausted) ∨
      (∃ k, retryEnd f = .success k ∧
        (driverStates f).getLast? = some .succeeded)) ∧
    (∀ out : Nat → Except Unit Unit,
      machineStep 100 out .succeeded = .succeeded ∧
      machineStep 100 out .exhausted = .exhausted) :=
  ⟨rfl, statesFrom_chain f 100 0 rfl, statesFrom_getLast f 100 0,
    fun _ => ⟨rfl, rfl⟩⟩

/-- C6: the events of the `n` executed attempts occur strictly in the order
creation, invocation, await, release, in disjoint consecutive blocks of four
(positions `4k .. 4k+3` for attempt `k`); in particular `release(k)` at
position `4k+3` strictly precedes `create(k+1)` at position `4k+4`. -/
theorem with_retries_event_order (f : String → Except Unit Unit) :
    ∃ n, 1 ≤ n ∧ n ≤ 100 ∧ retryTrace f = blocksFrom f 0 n ∧
      (∀ k, k < n →
        (retryTrace f)[4 * k]? = some (.create (transaction k)) ∧
        (retryTrace f)[4 * k + 1]? = some (.invoke (transaction k)) ∧
        (retryTrace f)[4 * k + 2]?
          = some (.wait (transaction k) (f (transaction k))) ∧
        (retryTrace f)[4 * k + 3]? = some (.release (transaction k))) ∧
      (∀ k, k + 1 < n →
        (retryTrace f)[4 * k + 3]? = some (.release (transaction k)) ∧
        (retryTrace f)[4 * k + 4]? = some (.create (transaction (k + 1)))) := by
  obtain ⟨n, hn, h1, htr⟩ := traceFrom_blocks f 100 0
  have h1n : 1 ≤ n := h1 (by omega)
  have htr : retryTrace f = blocksFrom f 0 n := by rw [retryTrace, htr]
  have key : ∀ k r, k < n → r < 4 →
      (retryTrace f)[4 * k + r]? = (attemptBlock f k)[r]? := by
    intro k r hk hr
    rw [htr, blocksFrom_getElem f k n 0 r hk hr, Nat.zero_add]
  refine ⟨n, h1n, hn, htr, ?_, ?_⟩
  · intro k hk
    have h0 := key k 0 hk (by omega)
    rw [Nat.add_zero] at h0
    exact ⟨by rw [h0]; rfl, by rw [key k 1 hk (by omega)]; rfl,
      by rw [key k 2 hk (by omega)]; rfl,
      by rw [key k 3 hk (by omega)]; rfl⟩
  · intro k hk
    have h0 := key (k + 1) 0 hk (by omega)
    rw [Nat.add_zero] at h0
    exact ⟨by rw [key k 3 (by omega) (by omega)]; rfl,
      by rw [show 4 * k + 4 = 4 * (k + 1) from by omega, h0]; rfl⟩

/-- C9: for every callback, the usize returned by `with_retries` is strictly
below the hard-coded maximum attempt count 100. -/
theorem with_retries_lt_max (f : String → Except Unit Unit) :
    with_retries f < 100 := by
  have h := retriesFrom_lt f 100 0 (by omega)
  simpa [with_retries] using h

/-- Counterexample to C1: the always-failing callback exhausts all 100
attempts, yet `with_retries` returns 0 — the very value it returns for a
callback that succeeds on attempt 0 — so the exhaustion result is not
distinct from every success result. -/
theorem exhaustion_return_collides :
    retryEnd (fun _ => Except.error ()) = .exhausted ∧
    retryEnd (fun _ => Except.ok ()) = .success 0 ∧
    with_retries (fun _ => Except.error ()) = 0 ∧
    with_retries (fun _ => Except.error ()) = with_retries (fun _ => Except.ok ()) := by
  decide

/-- C1 (amended): when the callback fails on all 100 attempts, the loop
exits through the exhaustion path and `with_retries` returns the
fall-through value 0, which coincides with the success return for attempt
index 0 — exhaustion is not reported as a distinct value. -/
theorem with_retries_exhaustion_returns_zero (f : String → Except Unit Unit)
    (hfail : ∀ i, i < 100 → f (transaction i) = .error ()) :
    retryEnd f = .exhausted ∧ with_retries f = 0 := by
  have htr := traceFrom_exhausted f 100 0
    (fun j hj => by rw [Nat.zero_add]; exact hfail j hj)
  exact ⟨by rw [retryEnd, htr],
    by rw [with_retries, retriesFrom_eq_end f 100 0, htr]⟩

/-- Witness for the amended C1: the always-failing callback. -/
theorem with_retries_exhaustion_returns_zero_witness :
    retryEnd (fun _ => Except.error ()) = .exhausted ∧
    with_retries (fun _ => Except.error ()) = 0 :=
  with_retries_exhaustion_returns_zero (fun _ => Except.error ()) (fun _ _ => rfl)

/-- C10: a callback that fails on all 100 attempts makes `with_retries`
return 0, the same usize a callback succeeding on the very first attempt
produces, so the caller cannot distinguish exhaustion from success at
attempt index 0 by the return value alone. -/
theorem with_retries_zero_ambiguous (f g : String → Except Unit Unit)
    (hfail : ∀ i, i < 100 → f (transaction i) = .error ())
    (hg : g (transaction 0) = .ok ()) :
    with_retries f = 0 ∧ retryEnd f = .exhausted ∧
    with_retries g = 0 ∧ retryEnd g = .success 0 := by
  have htrf := traceFrom_exhausted f 100 0
    (fun j hj => by rw [Nat.zero_add]; exact hfail j hj)
  have htrg := traceFrom_success g 0 100 0 (by omega)
    (fun j hj => absurd hj (Nat.not_lt_zero j))
    (by rw [Nat.add_zero]; exact hg)
  rw [Nat.add_zero] at htrg
  refine ⟨?_, by rw [retryEnd, htrf], ?_, by rw [retryEnd, htrg]⟩
  · rw [with_retries, retriesFrom_eq_end f 100 0, htrf]
  · rw [with_retries, retriesFrom_eq_end g 100 0, htrg]

/-- Witness for C10: the always-failing and the always-succeeding callback. -/
theorem with_retries_zero_ambiguous_witness :
    with_retries (fun _ => Except.error ()) = 0 ∧
    retryEnd (fun _ => Except.error ()) = .exhausted ∧
    with_retries (fun _ => Except.ok ()) = 0 ∧
    retryEnd (fun _ => Except.ok ()) = .success 0 :=
  with_retries_zero_ambiguous (fun _ => Except.error ()) (fun _ => Except.ok ())
    (fun _ _ => rfl) rfl

/-- Counterexample to C8: `with_retries` takes no maximum-attempt parameter;
with an always-failing callback it performs exactly 100 attempts, so it does
not orchestrate "up to N attempts" for a caller-chosen N (for N = 1 it would
have to stop after one attempt, but performs 100). -/
theorem with_retries_no_max_parameter :
    numAttempts (fun _ => Except.error ()) = 100 ∧
    ¬ numAttempts (fun _ => Except.error ()) ≤ 1 := by
  decide

/-- C8 (amended): the entry point takes only the callback; the maximum
attempt count is hard-coded to 100, and every run performs between 1 and
100 sequential attempts. -/
theorem with_retries_attempt_bounds (f : String → Except Unit Unit) :
    1 ≤ numAttempts f ∧ numAttempts f ≤ 100 := by
  obtain ⟨n, hn, h1, htr⟩ := traceFrom_blocks f 100 0
  have h1n : 1 ≤ n := h1 (by omega)
  have heq : numAttempts f = n := by
    rw [numAttempts, retryTrace, htr, createdLabels_blocksFrom f n 0]
    simp
  omega

end ShortFuture
